import Mathlib

/-!
Shallow embedding of the DomainMapper subdomain-enumeration core:
`passive_enum.py`, `active_enum.py` (the live third variant at the bottom of
the file), `takeover_detect.py`, `utils.py` and `change_detect.py`.

Network and filesystem effects are modelled as explicit inputs:
each HTTP/DNS response, the stdout of the external `dnsx` process, and the
outcome of reading a file are parameters of the embedded functions.  A Python
exception escaping a function is modelled as `Except.error`; an exception that
the source catches is an input constructor (`Option.none`, `ReadResult`,
`FetchOutcome`) that the embedded function handles the way the `except`
clause does.
-/

/-- Python `str.strip()` on the character list: drop leading and trailing
whitespace. -/
def stripChars (l : List Char) : List Char :=
  ((l.dropWhile Char.isWhitespace).reverse.dropWhile Char.isWhitespace).reverse

/-- Python `str.strip()`. -/
def pyStrip (s : String) : String := ⟨stripChars s.data⟩

/-- Python `str.lower()` (ASCII case folding, which is what hostnames use). -/
def pyLower (s : String) : String := ⟨s.data.map Char.toLower⟩

/-- Python `s.endswith(suffix)`: raw string suffix, no label boundary. -/
def pyEndsWith (s suffixStr : String) : Bool := suffixStr.data.isSuffixOf s.data

/-- Python `s.startswith(p)`. -/
def pyStartsWith (s p : String) : Bool := p.data.isPrefixOf s.data

/-- `needle` occurs as a contiguous subsequence of `hay`. -/
def containsSeq (needle : List Char) : List Char → Bool
  | [] => needle.isPrefixOf []
  | c :: rest => needle.isPrefixOf (c :: rest) || containsSeq needle rest

/-- Python `sub in s`: substring containment. -/
def pyContains (s sub : String) : Bool := containsSeq sub.data s.data

/-- Lexicographic comparison of character lists by code point (the order
Python uses to `sorted` hostname strings). -/
def charListLt : List Char → List Char → Bool
  | [], [] => false
  | [], _ :: _ => true
  | _ :: _, [] => false
  | a :: as, b :: bs =>
    if a.toNat < b.toNat then true else if b.toNat < a.toNat then false else charListLt as bs

/-- Python `<` on strings. -/
def strLt (a b : String) : Bool := charListLt a.data b.data

/-- Python `s.split("\n")` on a character list, with `cur` the (reversed)
characters of the line being accumulated.  Always returns at least one line. -/
def splitLines : List Char → List Char → List String
  | [], cur => [⟨cur.reverse⟩]
  | c :: rest, cur =>
    if c = '\n' then ⟨cur.reverse⟩ :: splitLines rest [] else splitLines rest (c :: cur)

/-- Python `s.replace("*.", "")`: left-to-right removal of every
(non-overlapping) occurrence of the two-character pattern. -/
def dropStarDot : List Char → List Char
  | [] => []
  | '*' :: '.' :: rest => dropStarDot rest
  | c :: rest => c :: dropStarDot rest

/-- Add an element to a Python set modelled as a duplicate-free list
(`subs.add(x)`). -/
def setAdd (l : List String) (x : String) : List String :=
  if l.contains x then l else l ++ [x]

/-- Insert a string into a strictly sorted list, skipping duplicates. -/
def insertHost (x : String) : List String → List String
  | [] => [x]
  | y :: ys => if x = y then y :: ys else if strLt x y then x :: y :: ys else y :: insertHost x ys

/-- Python `sorted(set(l))`: the strictly increasing enumeration of the
distinct elements of `l`. -/
def sortedDedup (l : List String) : List String := l.foldl (fun acc x => insertHost x acc) []

/-! ## passive_enum.py -/

/-- `fetch_alienvault` (`passive_enum.py:32`), with the parsed
`passive_dns[*].hostname` fields of the HTTP response supplied as `records`.
A record is kept iff `hostname.endswith(domain)` — a raw string suffix test —
and is lower-cased on insertion into the set. -/
def fetch_alienvault (domain : String) (records : List String) : List String :=
  records.foldl (fun subs hostname =>
    if pyEndsWith hostname domain then setAdd subs (pyLower hostname) else subs) []

/-- One line of a crt.sh certificate entry (`passive_enum.py:22`):
`line.strip().replace('*.', '')`, kept iff `domain in line and
line.endswith(domain)`, lower-cased. -/
def crtshLine (domain : String) (subs : List String) (line : String) : List String :=
  let line := (⟨dropStarDot (pyStrip line).data⟩ : String)
  if pyContains line domain && pyEndsWith line domain then setAdd subs (pyLower line) else subs

/-- `fetch_crtsh` (`passive_enum.py:11`), with the `name_value` field of each
JSON entry supplied as `entries`; each is split on newlines and filtered. -/
def fetch_crtsh (domain : String) (entries : List String) : List String :=
  entries.foldl (fun subs nameValue =>
    (splitLines nameValue.data []).foldl (crtshLine domain) subs) []

/-- `passive_enum` (`passive_enum.py:127`).  Each selected source call is
wrapped in `try/except`; a source that raises is modelled as `Option.none` and
contributes nothing, a source that returns a set is `some` of it.  The union
is returned as `sorted(all_subs)`. -/
def passive_enum (sourceResults : List (Option (List String))) : List String :=
  sortedDedup (sourceResults.foldl (fun acc r =>
    match r with
    | some subs => acc ++ subs
    | none => acc) [])

/-! ## utils.py -/

/-- `load_wordlist` (`utils.py:121`): keeps `line.strip()` for lines whose
strip is nonempty and which do not start (unstripped) with `#`; any read
exception yields `[]` (modelled by `Option.none`). -/
def load_wordlist (fileLines : Option (List String)) : List String :=
  match fileLines with
  | none => []
  | some lines =>
    lines.filterMap (fun line =>
      if pyStrip line ≠ "" ∧ ¬ pyStartsWith line "#" then some (pyStrip line) else none)

/-- The result record of `calculate_diff`. -/
structure DiffResult where
  added : List String
  removed : List String
  unchanged : List String
  deriving DecidableEq, Repr

/-- `calculate_diff` (`utils.py:146`): `sorted(new_set - old_set)`,
`sorted(old_set - new_set)`, `sorted(old_set & new_set)`, with the Python
sets modelled by membership in the lists. -/
def calculate_diff (old_list new_list : List String) : DiffResult where
  added := sortedDedup (new_list.filter (fun x => !(old_list.contains x)))
  removed := sortedDedup (old_list.filter (fun x => !(new_list.contains x)))
  unchanged := sortedDedup (old_list.filter (fun x => new_list.contains x))

/-! ## change_detect.py -/

/-- The result dictionary of `detect_changes` (the `timestamp` field, a
wall-clock reading, is outside the embedding). -/
structure ChangeResult where
  has_previous : Bool
  previous_file : Option String
  previous_count : Nat
  current_count : Nat
  added : List String
  removed : List String
  unchanged : List String
  deriving DecidableEq, Repr

/-- `detect_changes` (`change_detect.py:39`); the filesystem lookup
`get_latest_scan` is supplied as `previousScan` (`none` when no previous scan
file exists or reading it failed). -/
def detect_changes (domain : String) (previousScan : Option (String × List String))
    (current_subdomains : List String) : ChangeResult :=
  let result : ChangeResult :=
    { has_previous := false, previous_file := none, previous_count := 0,
      current_count := current_subdomains.length, added := [], removed := [], unchanged := [] }
  match previousScan with
  | none => result
  | some (previous_file, previous_subdomains) =>
    let d := calculate_diff previous_subdomains current_subdomains
    { result with
      has_previous := true
      previous_file := some previous_file
      previous_count := previous_subdomains.length
      added := d.added
      removed := d.removed
      unchanged := d.unchanged }

/-! ## active_enum.py (live code, `active_enum.py:270` onward) -/

instance {ε α : Type} [DecidableEq ε] [DecidableEq α] : DecidableEq (Except ε α) := fun a b =>
  match a, b with
  | Except.ok x, Except.ok y =>
    if h : x = y then isTrue (congrArg Except.ok h) else isFalse (fun hc => h (Except.ok.inj hc))
  | Except.error x, Except.error y =>
    if h : x = y then isTrue (congrArg Except.error h)
    else isFalse (fun hc => h (Except.error.inj hc))
  | Except.ok _, Except.error _ => isFalse (fun hc => Except.noConfusion hc)
  | Except.error _, Except.ok _ => isFalse (fun hc => Except.noConfusion hc)

/-- Outcome of `open(wordlist_path)`: the file's lines, a `FileNotFoundError`
(the only exception `active_enum` catches), or any other `OSError` such as a
permission error. -/
inductive ReadResult where
  | ok (lines : List String)
  | notFound
  | otherError
  deriving DecidableEq

/-- The inline wordlist/candidate construction of `active_enum`
(`active_enum.py:318`): `words = [line.strip() for line in f if line.strip()]`
then `subdomains = [f"{word}.{domain}" for word in words]`.  No lower-casing
and no comment filtering happen here. -/
def activeCandidates (domain : String) (lines : List String) : List String :=
  (lines.filterMap (fun line => if pyStrip line = "" then none else some (pyStrip line))).map
    (fun word => word ++ "." ++ domain)

/-- `resolve_with_dnsx` (`active_enum.py:299`): the external process stdout is
an input (`none` models the `except` branch for a raised exception, which
returns `[]`).  Mirrors `process.stdout.strip().split("\n") if process.stdout
else []`. -/
def resolve_with_dnsx (subdomains : List String) (stdout : Option String) : List String :=
  match stdout with
  | none => []
  | some out => if out = "" then [] else splitLines (pyStrip out).data []

/-- `active_enum` (`active_enum.py:314`), the live third variant.  `resolves`
models `resolve_dns_python` (true iff the A lookup succeeds); `dnsxAvailable`
models `shutil.which("dnsx")`.  With dnsx available the parsed dnsx output is
returned directly — there is no fallback when it is empty.  The executor-map
fallback keeps wordlist order and filters out unresolved names. -/
def active_enum (domain : String) (file : ReadResult) (dnsxAvailable : Bool)
    (dnsxStdout : Option String) (resolves : String → Bool) : Except Unit (List String) :=
  match file with
  | .notFound => .ok []
  | .otherError => .error ()
  | .ok lines =>
    let subdomains := activeCandidates domain lines
    if dnsxAvailable then .ok (resolve_with_dnsx subdomains dnsxStdout)
    else .ok (subdomains.filter resolves)

/-- The claim-side predicate (from the spec): a candidate qualifies only if it
equals the base domain or is a subdomain bounded at a label boundary. -/
def labelBoundedSuffix (host domain : String) : Bool :=
  host = domain || pyEndsWith host ("." ++ domain)

/-! ## takeover_detect.py -/

/-- Escalation levels of a takeover assessment (`'none' < 'low' < 'medium' <
'high'`). -/
inductive Confidence where
  | none
  | low
  | medium
  | high
  deriving DecidableEq, Repr

/-- Numeric rank of a confidence level. -/
def Confidence.toNat : Confidence → Nat
  | .none => 0
  | .low => 1
  | .medium => 2
  | .high => 3

instance : LE Confidence := ⟨fun a b => a.toNat ≤ b.toNat⟩

instance (a b : Confidence) : Decidable (a ≤ b) :=
  inferInstanceAs (Decidable (a.toNat ≤ b.toNat))

/-- One entry of `TAKEOVER_FINGERPRINTS`: CNAME substring patterns and
"unclaimed resource" response patterns. -/
structure Fingerprint where
  cname : List String
  response : List String

/-- `TAKEOVER_FINGERPRINTS` (`takeover_detect.py:13`), in source order. -/
def TAKEOVER_FINGERPRINTS : List (String × Fingerprint) :=
  [("GitHub Pages", ⟨["github.io", "github.com"],
      ["There isn\x27t a GitHub Pages site here", "For root URLs"]⟩),
   ("Heroku", ⟨["herokuapp.com", "herokussl.com"], ["No such app", "no-such-app"]⟩),
   ("AWS S3", ⟨["s3.amazonaws.com", "s3-website"],
      ["NoSuchBucket", "The specified bucket does not exist"]⟩),
   ("Azure", ⟨["azurewebsites.net", "cloudapp.net", "cloudapp.azure.com"],
      ["404 Web Site not found", "This site has been disabled"]⟩),
   ("Netlify", ⟨["netlify.com", "netlify.app"], ["Not Found - Request ID"]⟩),
   ("Vercel", ⟨["vercel.app", "now.sh"],
      ["The deployment could not be found", "The page you were looking for doesn\x27t exist"]⟩),
   ("Wordpress", ⟨["wordpress.com"], ["Do you want to register"]⟩),
   ("Shopify", ⟨["myshopify.com"], ["Sorry, this shop is currently unavailable"]⟩),
   ("Tumblr", ⟨["tumblr.com"],
      ["There\x27s nothing here", "Whatever you were looking for doesn\x27t currently exist"]⟩),
   ("Bitbucket", ⟨["bitbucket.io"], ["Repository not found"]⟩),
   ("Ghost", ⟨["ghost.io"], ["The thing you were looking for is no longer here"]⟩),
   ("Pantheon", ⟨["pantheonsite.io"], ["404 error unknown site"]⟩),
   ("Fastly", ⟨["fastly.net"], ["Fastly error: unknown domain"]⟩),
   ("Zendesk", ⟨["zendesk.com"], ["Help Center Closed"]⟩),
   ("HelpJuice", ⟨["helpjuice.com"], ["We could not find what you\x27re looking for"]⟩),
   ("Cargo", ⟨["cargocollective.com"], ["If you\x27re moving your domain away from Cargo"]⟩),
   ("StatusPage", ⟨["statuspage.io"], ["Status page not found"]⟩),
   ("Surge", ⟨["surge.sh"], ["project not found"]⟩)]

/-- `check_cname_vulnerable` (`takeover_detect.py:89`): first service whose
CNAME pattern is a substring of the lower-cased CNAME. -/
def check_cname_vulnerable (cname : String) : Option String :=
  if cname = "" then none
  else
    let c := pyLower cname
    (TAKEOVER_FINGERPRINTS.find? (fun sf => sf.2.cname.any (fun p => pyContains c p))).map
      (fun sf => sf.1)

/-- `check_response_vulnerable` (`takeover_detect.py:109`): any response
pattern of the service occurring (case-insensitively) in the content. -/
def check_response_vulnerable (content : String) (service : String) : Bool :=
  if content = "" || service = "" then false
  else
    let c := pyLower content
    match TAKEOVER_FINGERPRINTS.find? (fun sf => sf.1 = service) with
    | some sf => sf.2.response.any (fun p => pyContains c (pyLower p))
    | none => false

/-- The protocols tried by the content fetch, in source order. -/
inductive Protocol where
  | https
  | http
  deriving DecidableEq

/-- Outcome of one `requests.get` attempt: a response with status and body,
an `SSLError`, or any other exception. -/
inductive FetchOutcome where
  | success (status : Nat) (body : String)
  | sslError
  | otherError
  deriving DecidableEq

/-- The mutable fields of `result` that the protocol loop of
`check_subdomain_takeover` updates. -/
structure LoopState where
  vulnerable : Bool
  confidence : Confidence
  status_code : Option Nat
  evidence : List String
  deriving DecidableEq, Repr

/-- The `for protocol in ['https', 'http']` loop of `check_subdomain_takeover`
(`takeover_detect.py:161`).  Besides the final state it returns the trace of
values assigned to `result['confidence']` during the loop, in order. -/
def takeoverLoop (service : String) (fetch : Protocol → FetchOutcome) :
    List Protocol → LoopState → LoopState × List Confidence
  | [], st => (st, [])
  | p :: rest, st =>
    match fetch p with
    | .success status body =>
      let st1 := { st with status_code := some status }
      if check_response_vulnerable body service then
        ({ st1 with
            vulnerable := true,
            confidence := .high,
            evidence := st1.evidence ++ ["Vulnerable response pattern detected"] },
         [Confidence.high])
      else if status = 404 then
        ({ st1 with
            confidence := .medium,
            evidence := st1.evidence ++ ["404 response with service CNAME"] },
         [Confidence.medium])
      else (st1, [])
    | .sslError =>
      let st1 :=
        { st with
          evidence := st.evidence ++ ["SSL error (common with takeover)"],
          confidence := .medium }
      let r := takeoverLoop service fetch rest st1
      (r.1, Confidence.medium :: r.2)
    | .otherError => takeoverLoop service fetch rest st

/-- The assessment dictionary built by `check_subdomain_takeover`. -/
structure TakeoverResult where
  subdomain : String
  vulnerable : Bool
  confidence : Confidence
  service : Option String
  cname : Option String
  ip : Option String
  status_code : Option Nat
  evidence : List String
  deriving DecidableEq, Repr

/-- `check_subdomain_takeover` (`takeover_detect.py:129`), instrumented to also
return the trace of values `result['confidence']` takes, starting with the
`'none'` of the dict literal.  DNS answers (`resolve_ip`, `get_cname`) and the
HTTP fetch are inputs.  The `elif result['cname'] and not result['ip']` branch
is translated as written: it sits in the `else` of `if result['cname']`, so its
guard re-tests a CNAME that is known absent. -/
def check_subdomain_takeover_instr (subdomain : String) (ip : Option String)
    (cname : Option String) (fetch : Protocol → FetchOutcome) :
    TakeoverResult × List Confidence :=
  let result : TakeoverResult :=
    { subdomain := subdomain, vulnerable := false, confidence := .none, service := none,
      cname := cname, ip := ip, status_code := none, evidence := [] }
  if cname.isSome then
    match check_cname_vulnerable (cname.getD "") with
    | some service =>
      let st0 : LoopState :=
        { vulnerable := false, confidence := .low, status_code := none,
          evidence := ["CNAME points to " ++ service ++ ": " ++ cname.getD ""] }
      let r := takeoverLoop service fetch [Protocol.https, Protocol.http] st0
      ({ result with
          vulnerable := r.1.vulnerable,
          confidence := r.1.confidence,
          service := some service,
          status_code := r.1.status_code,
          evidence := r.1.evidence },
       [Confidence.none, Confidence.low] ++ r.2)
    | none => (result, [Confidence.none])
  else if cname.isSome && ip.isNone then
    ({ result with
        confidence := .medium,
        evidence := ["CNAME exists but doesn\x27t resolve to IP"] },
     [Confidence.none, Confidence.medium])
  else (result, [Confidence.none])

/-- `check_subdomain_takeover`: the returned assessment. -/
def check_subdomain_takeover (subdomain : String) (ip : Option String)
    (cname : Option String) (fetch : Protocol → FetchOutcome) : TakeoverResult :=
  (check_subdomain_takeover_instr subdomain ip cname fetch).1

/-- The ordered trace of assignments to `result['confidence']` in one run of
`check_subdomain_takeover`. -/
def takeoverConfidenceTrace (subdomain : String) (ip : Option String)
    (cname : Option String) (fetch : Protocol → FetchOutcome) : List Confidence :=
  (check_subdomain_takeover_instr subdomain ip cname fetch).2

/-! ## Order facts about the lexicographic comparison -/

theorem charListLt_irrefl : ∀ l : List Char, charListLt l l = false
  | [] => rfl
  | _ :: as => by simp [charListLt, charListLt_irrefl as]

theorem charListLt_trans : ∀ (a b c : List Char),
    charListLt a b = true → charListLt b c = true → charListLt a c = true := by
  intro a
  induction a with
  | nil =>
    intro b c hab hbc
    cases b with
    | nil => simp [charListLt] at hab
    | cons y ys =>
      cases c with
      | nil => simp [charListLt] at hbc
      | cons z zs => simp [charListLt]
  | cons x xs ih =>
    intro b c hab hbc
    cases b with
    | nil => simp [charListLt] at hab
    | cons y ys =>
      cases c with
      | nil => simp [charListLt] at hbc
      | cons z zs =>
        by_cases hxy : x.toNat < y.toNat
        · by_cases hyz : y.toNat < z.toNat
          · have hxz : x.toNat < z.toNat := Nat.lt_trans hxy hyz
            simp [charListLt, hxz]
          · by_cases hzy : z.toNat < y.toNat
            · simp [charListLt, hyz, hzy] at hbc
            · have hxz : x.toNat < z.toNat := by omega
              simp [charListLt, hxz]
        · by_cases hyx : y.toNat < x.toNat
          · simp [charListLt, hxy, hyx] at hab
          · by_cases hyz : y.toNat < z.toNat
            · have hxz : x.toNat < z.toNat := by omega
              simp [charListLt, hxz]
            · by_cases hzy : z.toNat < y.toNat
              · simp [charListLt, hyz, hzy] at hbc
              · have hxz : ¬ x.toNat < z.toNat := by omega
                have hzx : ¬ z.toNat < x.toNat := by omega
                have h1 : charListLt xs ys = true := by
                  simpa [charListLt, hxy, hyx] using hab
                have h2 : charListLt ys zs = true := by
                  simpa [charListLt, hyz, hzy] using hbc
                simp [charListLt, hxz, hzx, ih ys zs h1 h2]

theorem charListLt_or : ∀ (a b : List Char), a ≠ b →
    charListLt a b = true ∨ charListLt b a = true := by
  intro a
  induction a with
  | nil =>
    intro b hne
    cases b with
    | nil => exact absurd rfl hne
    | cons y ys => left; rfl
  | cons x xs ih =>
    intro b hne
    cases b with
    | nil => right; rfl
    | cons y ys =>
      by_cases hxy : x.toNat < y.toNat
      · left; simp [charListLt, hxy]
      · by_cases hyx : y.toNat < x.toNat
        · right; simp [charListLt, hyx]
        · have htn : x.toNat = y.toNat := by omega
          have hxyeq : x = y := Char.eq_of_val_eq (UInt32.ext htn)
          have hne' : xs ≠ ys := by
            intro h
            exact hne (by rw [hxyeq, h])
          rcases ih ys hne' with h | h
          · left; simp [charListLt, hxy, hyx, h]
          · right; simp [charListLt, hxy, hyx, h]

theorem strLt_irrefl (a : String) : strLt a a = false := charListLt_irrefl a.data

theorem strLt_trans {a b c : String} (hab : strLt a b = true) (hbc : strLt b c = true) :
    strLt a c = true := charListLt_trans a.data b.data c.data hab hbc

theorem strLt_or {a b : String} (h : a ≠ b) : strLt a b = true ∨ strLt b a = true := by
  apply charListLt_or
  intro hd
  apply h
  cases a
  cases b
  exact congrArg String.mk hd

theorem strLt_ne {a b : String} (h : strLt a b = true) : a ≠ b := by
  intro heq
  subst heq
  simp [strLt_irrefl] at h

/-! ## Membership and sortedness of the sorted-set model -/

theorem contains_iff_mem (l : List String) (a : String) : l.contains a = true ↔ a ∈ l := by
  simp [List.contains, List.elem_iff]

theorem mem_setAdd (l : List String) (x a : String) : a ∈ setAdd l x ↔ a = x ∨ a ∈ l := by
  unfold setAdd
  by_cases h : l.contains x = true
  · simp only [h, if_true]
    constructor
    · exact fun h2 => Or.inr h2
    · rintro (rfl | h2)
      · exact (contains_iff_mem l a).mp h
      · exact h2
  · simp only [h, if_false]
    simp [List.mem_append]
    tauto

theorem mem_insertHost (x a : String) : ∀ l : List String,
    a ∈ insertHost x l ↔ a = x ∨ a ∈ l := by
  intro l
  induction l with
  | nil => simp [insertHost]
  | cons y ys ih =>
    by_cases hxy : x = y
    · subst hxy
      simp [insertHost]
    · by_cases hlt : strLt x y = true
      · simp [insertHost, hxy, hlt, List.mem_cons]
      · simp [insertHost, hxy, hlt, List.mem_cons, ih]
        tauto

theorem pairwise_insertHost (x : String) : ∀ l : List String,
    l.Pairwise (fun a b => strLt a b = true) →
    (insertHost x l).Pairwise (fun a b => strLt a b = true) := by
  intro l
  induction l with
  | nil =>
    intro _
    simp [insertHost]
  | cons y ys ih =>
    intro hp
    rcases List.pairwise_cons.mp hp with ⟨hy, hys⟩
    by_cases hxy : x = y
    · simpa [insertHost, hxy] using hp
    · by_cases hlt : strLt x y = true
      · simp only [insertHost, if_neg hxy, hlt, if_true]
        refine List.pairwise_cons.mpr ⟨?_, hp⟩
        intro b hb
        rcases List.mem_cons.mp hb with rfl | hbys
        · exact hlt
        · exact strLt_trans hlt (hy b hbys)
      · have hyx : strLt y x = true := by
          rcases strLt_or hxy with h | h
          · exact absurd h hlt
          · exact h
        simp only [insertHost, if_neg hxy, hlt, if_false]
        refine List.pairwise_cons.mpr ⟨?_, ih hys⟩
        intro b hb
        rcases (mem_insertHost x b ys).mp hb with rfl | hbys
        · exact hyx
        · exact hy b hbys

theorem pairwise_sortedDedup_aux : ∀ (l acc : List String),
    acc.Pairwise (fun a b => strLt a b = true) →
    (l.foldl (fun acc x => insertHost x acc) acc).Pairwise (fun a b => strLt a b = true) := by
  intro l
  induction l with
  | nil => intro acc h; simpa using h
  | cons x xs ih => intro acc h; exact ih _ (pairwise_insertHost x acc h)

theorem pairwise_sortedDedup (l : List String) :
    (sortedDedup l).Pairwise (fun a b => strLt a b = true) :=
  pairwise_sortedDedup_aux l [] (by simp)

theorem mem_sortedDedup_aux : ∀ (l acc : List String) (a : String),
    a ∈ l.foldl (fun acc x => insertHost x acc) acc ↔ a ∈ acc ∨ a ∈ l := by
  intro l
  induction l with
  | nil => simp
  | cons x xs ih =>
    intro acc a
    simp only [List.foldl]
    rw [ih]
    rw [mem_insertHost]
    simp [List.mem_cons]
    tauto

theorem mem_sortedDedup (l : List String) (a : String) : a ∈ sortedDedup l ↔ a ∈ l := by
  simp [sortedDedup, mem_sortedDedup_aux]

theorem nodup_sortedDedup (l : List String) : (sortedDedup l).Nodup :=
  (pairwise_sortedDedup l).imp (fun h => strLt_ne h)

/-! ## Lemmas about the takeover protocol loop -/

theorem conf_le_high (c : Confidence) : c ≤ Confidence.high := by
  cases c <;> decide

theorem takeoverLoop_chain (service : String) (fetch : Protocol → FetchOutcome) :
    ∀ (ps : List Protocol) (st : LoopState), st.confidence ≤ Confidence.medium →
    List.Chain (fun a b : Confidence => a ≤ b) st.confidence
      (takeoverLoop service fetch ps st).2 := by
  intro ps
  induction ps with
  | nil => intro st _; exact List.Chain.nil
  | cons p rest ih =>
    intro st hst
    cases hf : fetch p with
    | success status body =>
      simp only [takeoverLoop, hf]
      by_cases hv : check_response_vulnerable body service = true
      · simp only [hv, if_true]
        exact List.Chain.cons (conf_le_high _) List.Chain.nil
      · by_cases h4 : status = 404
        · simp only [hv, h4, if_false, if_true]
          exact List.Chain.cons hst List.Chain.nil
        · simp only [hv, h4, if_false]
          exact List.Chain.nil
    | sslError =>
      simp only [takeoverLoop, hf]
      have hmed : ({ st with
          evidence := st.evidence ++ ["SSL error (common with takeover)"],
          confidence := Confidence.medium } : LoopState).confidence ≤ Confidence.medium :=
        Nat.le.refl
      exact List.Chain.cons hst (ih _ hmed)
    | otherError =>
      simp only [takeoverLoop, hf]
      exact ih st hst

theorem takeoverLoop_lastD (service : String) (fetch : Protocol → FetchOutcome) :
    ∀ (ps : List Protocol) (st : LoopState),
    (takeoverLoop service fetch ps st).2.getLastD st.confidence =
      (takeoverLoop service fetch ps st).1.confidence := by
  intro ps
  induction ps with
  | nil => intro st; rfl
  | cons p rest ih =>
    intro st
    cases hf : fetch p with
    | success status body =>
      simp only [takeoverLoop, hf]
      by_cases hv : check_response_vulnerable body service = true
      · simp only [hv, if_true]
        rfl
      · by_cases h4 : status = 404
        · simp only [hv, h4, if_false, if_true]
          rfl
        · simp only [hv, h4, if_false]
          rfl
    | sslError =>
      simp only [takeoverLoop, hf]
      rw [List.getLastD_cons]
      exact ih _
    | otherError =>
      simp only [takeoverLoop, hf]
      exact ih st

theorem takeoverLoop_vuln (service : String) (fetch : Protocol → FetchOutcome) :
    ∀ (ps : List Protocol) (st : LoopState), st.vulnerable = false →
    (takeoverLoop service fetch ps st).1.vulnerable = true →
    (takeoverLoop service fetch ps st).1.confidence = Confidence.high := by
  intro ps
  induction ps with
  | nil =>
    intro st h0 hv
    rw [show (takeoverLoop service fetch [] st).1 = st from rfl] at hv
    rw [h0] at hv
    exact absurd hv (by simp)
  | cons p rest ih =>
    intro st h0 hv
    cases hf : fetch p with
    | success status body =>
      simp only [takeoverLoop, hf] at hv ⊢
      by_cases hvr : check_response_vulnerable body service = true
      · simp only [hvr, if_true]
      · by_cases h4 : status = 404
        · simp only [hvr, h4, if_false, if_true] at hv
          exact absurd (h0 ▸ hv) (by simp)
        · simp only [hvr, h4, if_false] at hv
          exact absurd (h0 ▸ hv) (by simp)
    | sslError =>
      simp only [takeoverLoop, hf] at hv ⊢
      exact ih _ h0 hv
    | otherError =>
      simp only [takeoverLoop, hf] at hv ⊢
      exact ih st h0 hv

/-! ## Helper lemmas for the set-algebra claims -/

theorem contains_eq_false (l : List String) (a : String) : l.contains a = false ↔ a ∉ l := by
  constructor
  · intro h hm
    rw [(contains_iff_mem l a).mpr hm] at h
    exact Bool.noConfusion h
  · intro hm
    cases h : l.contains a
    · rfl
    · exact absurd ((contains_iff_mem l a).mp h) hm

theorem mem_alienvault_fold (domain : String) : ∀ (records acc : List String) (x : String),
    x ∈ records.foldl (fun subs hostname =>
        if pyEndsWith hostname domain then setAdd subs (pyLower hostname) else subs) acc ↔
      x ∈ acc ∨ ∃ h, h ∈ records ∧ pyEndsWith h domain = true ∧ x = pyLower h := by
  intro records
  induction records with
  | nil => intro acc x; simp
  | cons r rs ih =>
    intro acc x
    simp only [List.foldl]
    rw [ih]
    cases hr : pyEndsWith r domain with
    | true =>
      simp only [if_true]
      rw [mem_setAdd]
      constructor
      · rintro ((rfl | hacc) | ⟨h, hm, he, hx⟩)
        · exact Or.inr ⟨r, List.mem_cons_self r rs, hr, rfl⟩
        · exact Or.inl hacc
        · exact Or.inr ⟨h, List.mem_cons_of_mem r hm, he, hx⟩
      · rintro (hacc | ⟨h, hm, he, hx⟩)
        · exact Or.inl (Or.inr hacc)
        · rcases List.mem_cons.mp hm with rfl | hm2
          · exact Or.inl (Or.inl hx)
          · exact Or.inr ⟨h, hm2, he, hx⟩
    | false =>
      simp only [Bool.false_eq_true, if_false]
      constructor
      · rintro (hacc | ⟨h, hm, he, hx⟩)
        · exact Or.inl hacc
        · exact Or.inr ⟨h, List.mem_cons_of_mem r hm, he, hx⟩
      · rintro (hacc | ⟨h, hm, he, hx⟩)
        · exact Or.inl hacc
        · rcases List.mem_cons.mp hm with rfl | hm2
          · rw [hr] at he
            exact Bool.noConfusion he
          · exact Or.inr ⟨h, hm2, he, hx⟩

theorem mem_fetch_alienvault (domain : String) (records : List String) (x : String) :
    x ∈ fetch_alienvault domain records ↔
      ∃ h, h ∈ records ∧ pyEndsWith h domain = true ∧ x = pyLower h := by
  have := mem_alienvault_fold domain records [] x
  simpa [fetch_alienvault] using this

theorem foldl_union_filterMap : ∀ (rs : List (Option (List String))) (acc : List String),
    rs.foldl (fun acc r =>
        match r with
        | some subs => acc ++ subs
        | none => acc) acc =
    ((rs.filterMap id).map some).foldl (fun acc r =>
        match r with
        | some subs => acc ++ subs
        | none => acc) acc := by
  intro rs
  induction rs with
  | nil => intro acc; rfl
  | cons r rest ih =>
    intro acc
    cases r with
    | none =>
      simp only [List.foldl, List.filterMap_cons, id]
      exact ih acc
    | some subs =>
      simp only [List.foldl, List.filterMap_cons, id, List.map_cons]
      exact ih (acc ++ subs)

theorem mem_diff_added (old_list new_list : List String) (x : String) :
    x ∈ (calculate_diff old_list new_list).added ↔ x ∈ new_list ∧ x ∉ old_list := by
  simp only [calculate_diff, mem_sortedDedup, List.mem_filter, Bool.not_eq_true',
    contains_eq_false]

theorem mem_diff_removed (old_list new_list : List String) (x : String) :
    x ∈ (calculate_diff old_list new_list).removed ↔ x ∈ old_list ∧ x ∉ new_list := by
  simp only [calculate_diff, mem_sortedDedup, List.mem_filter, Bool.not_eq_true',
    contains_eq_false]

theorem mem_diff_unchanged (old_list new_list : List String) (x : String) :
    x ∈ (calculate_diff old_list new_list).unchanged ↔ x ∈ old_list ∧ x ∈ new_list := by
  simp only [calculate_diff, mem_sortedDedup, List.mem_filter, contains_iff_mem]

theorem filter_not_contains_self (a : List String) :
    a.filter (fun y => !(a.contains y)) = [] := by
  rw [List.filter_eq_nil_iff]
  intro b hb hcontra
  simp only [Bool.not_eq_true'] at hcontra
  exact (contains_eq_false a b).mp hcontra hb

theorem calculate_diff_self (a : List String) :
    calculate_diff a a = ⟨[], [], sortedDedup a⟩ := by
  have h3 : a.filter (fun y => a.contains y) = a := by
    rw [List.filter_eq_self]
    intro b hb
    exact (contains_iff_mem a b).mpr hb
  unfold calculate_diff
  rw [filter_not_contains_self, h3]
  rfl

theorem calculate_diff_added_singleton (a : List String) (x : String) (hx : x ∉ a) :
    (calculate_diff a (a ++ [x])).added = [x] := by
  have hx2 : a.contains x = false := (contains_eq_false a x).mpr hx
  have hpx : (!(a.contains x)) = true := by rw [hx2]; rfl
  show sortedDedup ((a ++ [x]).filter (fun y => !(a.contains y))) = [x]
  rw [List.filter_append, filter_not_contains_self]
  simp only [List.nil_append, List.filter, hpx]
  rfl

/-! ## Claim theorems -/

/-- C1 (counterexample): the merge policy is a raw string-suffix test, not a
label-bounded one — for domain `example.com`, a passive-DNS record
`evilexample.com` appears in the merged passive-enumeration output even though
it is not the domain or a label-bounded subdomain of it. -/
theorem passive_merge_label_boundary_counterexample :
    "evilexample.com" ∈ passive_enum
        [some (fetch_alienvault "example.com" ["evilexample.com"])] ∧
    labelBoundedSuffix "evilexample.com" "example.com" = false := by
  constructor
  · decide
  · decide

/-- C1 (amended): a candidate enters a passive source set iff some harvested
hostname raw-string-endswith the queried domain and lower-cases to it; no
label boundary is enforced, so for domain `example.com` both `api.example.com`
and `evilexample.com` reach the merged output. -/
theorem passive_merge_raw_suffix_amended :
    (∀ (domain : String) (records : List String) (x : String),
      x ∈ fetch_alienvault domain records ↔
        ∃ h, h ∈ records ∧ pyEndsWith h domain = true ∧ x = pyLower h) ∧
    "api.example.com" ∈ passive_enum
        [some (fetch_alienvault "example.com" ["api.example.com"]),
         some (fetch_crtsh "example.com" ["evilexample.com"])] ∧
    "evilexample.com" ∈ passive_enum
        [some (fetch_alienvault "example.com" ["api.example.com"]),
         some (fetch_crtsh "example.com" ["evilexample.com"])] :=
  ⟨mem_fetch_alienvault, by decide, by decide⟩

/-- C1 (witness): the amended membership characterization evaluated at domain
`example.com` and the single record `API.example.com`. -/
theorem passive_merge_raw_suffix_witness :
    ∃ h, h ∈ ["API.example.com"] ∧ pyEndsWith h "example.com" = true ∧
      "api.example.com" = pyLower h :=
  (passive_merge_raw_suffix_amended.1 "example.com" ["API.example.com"]
    "api.example.com").mp (by decide)

/-- C2 (counterexample): with the bulk resolver discoverable but producing
empty output, `active_enum` returns the empty result instead of what the
concurrent strategy alone would produce on the same candidates. -/
theorem active_enum_bulk_empty_counterexample :
    active_enum "example.com" (ReadResult.ok ["www"]) true (some "")
        (fun s => s == "www.example.com") = Except.ok [] ∧
    active_enum "example.com" (ReadResult.ok ["www"]) false none
        (fun s => s == "www.example.com") = Except.ok ["www.example.com"] ∧
    (Except.ok [] : Except Unit (List String)) ≠ Except.ok ["www.example.com"] := by
  refine ⟨rfl, by decide, by decide⟩

/-- C2 (amended): whenever the bulk resolver executable is discoverable,
`active_enum` returns exactly the parsed bulk-tool output — even when that
output is empty — and never falls back to the concurrent per-host strategy. -/
theorem active_enum_bulk_no_fallback (domain : String) (lines : List String)
    (stdout : Option String) (resolves : String → Bool) :
    active_enum domain (ReadResult.ok lines) true stdout resolves =
      Except.ok (resolve_with_dnsx (activeCandidates domain lines) stdout) :=
  rfl

/-- C3 (code bug): a hostname whose CNAME exists but matches no fingerprint
and resolves to no IP is returned with confidence `none` and empty evidence —
the `elif result['cname'] and not result['ip']` branch sits in the `else` of
`if result['cname']` and is unreachable, so the intended `medium` confidence
and "CNAME exists but doesn't resolve" evidence are never produced. -/
theorem takeover_cname_no_ip_dead_branch :
    check_subdomain_takeover "shop.example.com" none (some "dangling.example.org")
        (fun _ => FetchOutcome.otherError) =
      { subdomain := "shop.example.com", vulnerable := false,
        confidence := Confidence.none, service := none,
        cname := some "dangling.example.org", ip := none, status_code := none,
        evidence := [] } := by
  decide

/-- C4: within one run of `check_subdomain_takeover` the confidence only moves
forward in the order none < low < medium < high: the trace of assignments to
`result['confidence']` is monotone under `≤`, and the returned confidence is
the last assigned value, so a `medium` or `high` is never lowered before the
assessment is returned. -/
theorem takeover_confidence_monotone (s : String) (ip cname : Option String)
    (fetch : Protocol → FetchOutcome) :
    List.Chain' (fun a b : Confidence => a ≤ b) (takeoverConfidenceTrace s ip cname fetch) ∧
    (takeoverConfidenceTrace s ip cname fetch).getLastD Confidence.none =
      (check_subdomain_takeover s ip cname fetch).confidence := by
  cases cname with
  | none => exact ⟨List.Chain.nil, rfl⟩
  | some cn =>
    cases hv : check_cname_vulnerable cn with
    | none =>
      constructor
      · show List.Chain' _ (check_subdomain_takeover_instr s ip (some cn) fetch).2
        simp only [check_subdomain_takeover_instr, Option.isSome_some, if_true,
          Option.getD_some, hv]
        exact List.Chain.nil
      · show (check_subdomain_takeover_instr s ip (some cn) fetch).2.getLastD Confidence.none =
          (check_subdomain_takeover_instr s ip (some cn) fetch).1.confidence
        simp only [check_subdomain_takeover_instr, Option.isSome_some, if_true,
          Option.getD_some, hv]
        rfl
    | some service =>
      constructor
      · show List.Chain' _ (check_subdomain_takeover_instr s ip (some cn) fetch).2
        simp only [check_subdomain_takeover_instr, Option.isSome_some, if_true,
          Option.getD_some, hv]
        refine List.Chain.cons (by decide) ?_
        exact takeoverLoop_chain service fetch [Protocol.https, Protocol.http]
          { vulnerable := false, confidence := Confidence.low, status_code := none,
            evidence := ["CNAME points to " ++ service ++ ": " ++ cn] } (Nat.le_succ 1)
      · show (check_subdomain_takeover_instr s ip (some cn) fetch).2.getLastD Confidence.none =
          (check_subdomain_takeover_instr s ip (some cn) fetch).1.confidence
        simp only [check_subdomain_takeover_instr, Option.isSome_some, if_true,
          Option.getD_some, hv, List.cons_append, List.nil_append]
        rw [List.getLastD_cons, List.getLastD_cons]
        exact takeoverLoop_lastD service fetch [Protocol.https, Protocol.http]
          { vulnerable := false, confidence := Confidence.low, status_code := none,
            evidence := ["CNAME points to " ++ service ++ ": " ++ cn] }

/-- C5: passive sources that raise are isolated — `passive_enum` over any mix
of failing (`none`) and successful (`some`) adapters equals `passive_enum`
over the successful adapters alone, and a concrete 2-of-5-failing run returns
the union of the three successful sources. -/
theorem passive_enum_isolated_failures :
    (∀ rs : List (Option (List String)),
      passive_enum rs = passive_enum ((rs.filterMap id).map some)) ∧
    passive_enum [some ["a.example.com"], none, some ["b.example.com"], none,
        some ["c.example.com"]] =
      ["a.example.com", "b.example.com", "c.example.com"] := by
  constructor
  · intro rs
    unfold passive_enum
    rw [foldl_union_filterMap]
  · decide

/-- C6 (counterexample): the active path trims and skips blank lines but does
not skip `#` comment lines — for domain `example.com` and wordlist
`["www", "api", "#comment", ""]` the candidates include
`#comment.example.com`, so the set is not `{www.example.com, api.example.com}`. -/
theorem activeCandidates_comment_counterexample :
    activeCandidates "example.com" ["www", "api", "#comment", ""] =
      ["www.example.com", "api.example.com", "#comment.example.com"] ∧
    activeCandidates "example.com" ["www", "api", "#comment", ""] ≠
      ["www.example.com", "api.example.com"] := by
  constructor
  · decide
  · decide

/-- C6 (amended): the active path builds candidates by trimming whitespace from
each wordlist line and skipping lines whose trim is empty, concatenating
`entry.domain`; it does not lower-case entries and does not skip `#` comment
lines. -/
theorem activeCandidates_spec_amended (domain : String) (lines : List String) (x : String) :
    x ∈ activeCandidates domain lines ↔
      ∃ l, l ∈ lines ∧ pyStrip l ≠ "" ∧ x = pyStrip l ++ "." ++ domain := by
  simp only [activeCandidates, List.mem_map, List.mem_filterMap]
  constructor
  · rintro ⟨w, ⟨l, hl, hif⟩, rfl⟩
    by_cases h : pyStrip l = ""
    · rw [if_pos h] at hif
      exact absurd hif (by simp)
    · rw [if_neg h] at hif
      injection hif with hw
      exact ⟨l, hl, h, by rw [hw]⟩
  · rintro ⟨l, hl, h, rfl⟩
    exact ⟨pyStrip l, ⟨l, hl, by rw [if_neg h]⟩, rfl⟩

/-- C6 (witness): the amended candidate characterization evaluated on the
scenario wordlist. -/
theorem activeCandidates_spec_witness :
    "www.example.com" ∈ activeCandidates "example.com" ["www", "api", "#comment", ""] :=
  (activeCandidates_spec_amended "example.com" ["www", "api", "#comment", ""]
    "www.example.com").mpr ⟨"www", by decide, by decide, by decide⟩

/-- C7 (counterexample): a wordlist file that exists but cannot be read (any
`OSError` other than `FileNotFoundError`, e.g. a permission error) makes
`active_enum` propagate the exception to the caller instead of returning a
result. -/
theorem active_enum_unreadable_raises :
    active_enum "example.com" ReadResult.otherError false none (fun _ => false) =
      Except.error () :=
  rfl

/-- C7 (amended): a missing wordlist file yields an empty result without an
exception, and an empty wordlist yields an empty candidate set; but read
errors other than file-not-found propagate, and no distinct "no candidates"
condition is reported. -/
theorem active_enum_no_candidates_amended (domain : String) (dnsxAvailable : Bool)
    (stdout : Option String) (resolves : String → Bool) :
    active_enum domain ReadResult.notFound dnsxAvailable stdout resolves = Except.ok [] ∧
    activeCandidates domain [] = [] ∧
    active_enum domain ReadResult.otherError dnsxAvailable stdout resolves =
      Except.error () :=
  ⟨rfl, rfl, rfl⟩

/-- C8 (counterexample): `active_enum` does not sort or deduplicate — a
wordlist with a repeated entry and a resolver that resolves everything yields
a result list with a duplicate hostname. -/
theorem active_enum_unsorted_counterexample :
    active_enum "example.com" (ReadResult.ok ["www", "www"]) false none (fun _ => true) =
      Except.ok ["www.example.com", "www.example.com"] ∧
    ¬ (["www.example.com", "www.example.com"] : List String).Nodup := by
  constructor
  · rfl
  · decide

/-- C8 (amended): `passive_enum` returns a strictly sorted, duplicate-free
list for every input; `active_enum` returns resolved hosts in wordlist /
bulk-output order without sorting or deduplication. -/
theorem passive_enum_sorted_nodup (rs : List (Option (List String))) :
    (passive_enum rs).Pairwise (fun a b => strLt a b = true) ∧ (passive_enum rs).Nodup :=
  ⟨pairwise_sortedDedup _, nodup_sortedDedup _⟩

/-- C9: change detection is exact set algebra — membership in
`added`/`removed`/`unchanged` is exactly the corresponding set operation,
`diff(A, A)` has empty `added`/`removed` and `unchanged` the sorted set of
`A`, `diff(A, A ∪ {x})` has `added = [x]`, and with no previous snapshot
`detect_changes` returns `has_previous = false` with empty fields, not an
error. -/
theorem change_detection_set_algebra :
    (∀ (a b : List String) (x : String),
      x ∈ (calculate_diff a b).added ↔ x ∈ b ∧ x ∉ a) ∧
    (∀ (a b : List String) (x : String),
      x ∈ (calculate_diff a b).removed ↔ x ∈ a ∧ x ∉ b) ∧
    (∀ (a b : List String) (x : String),
      x ∈ (calculate_diff a b).unchanged ↔ x ∈ a ∧ x ∈ b) ∧
    (∀ a : List String, calculate_diff a a = ⟨[], [], sortedDedup a⟩) ∧
    (∀ (a : List String) (x : String), x ∉ a → (calculate_diff a (a ++ [x])).added = [x]) ∧
    detect_changes "example.com" none ["api.example.com"] =
      { has_previous := false, previous_file := none, previous_count := 0,
        current_count := 1, added := [], removed := [], unchanged := [] } :=
  ⟨mem_diff_added, mem_diff_removed, mem_diff_unchanged, calculate_diff_self,
   calculate_diff_added_singleton, rfl⟩

/-- C9 (witness): the singleton-addition law evaluated at a concrete snapshot
pair. -/
theorem change_detection_set_algebra_witness :
    (calculate_diff ["api.example.com"] (["api.example.com"] ++ ["www.example.com"])).added =
      ["www.example.com"] :=
  change_detection_set_algebra.2.2.2.2.1 ["api.example.com"] "www.example.com" (by decide)

/-- C10: an assessment is only ever marked vulnerable in the content-confirmed
terminal state — `vulnerable = true` implies confidence `high`, a present
matched service, and a present CNAME. -/
theorem takeover_vulnerable_invariant (s : String) (ip cname : Option String)
    (fetch : Protocol → FetchOutcome)
    (hvuln : (check_subdomain_takeover s ip cname fetch).vulnerable = true) :
    (check_subdomain_takeover s ip cname fetch).confidence = Confidence.high ∧
    (check_subdomain_takeover s ip cname fetch).service.isSome = true ∧
    (check_subdomain_takeover s ip cname fetch).cname.isSome = true := by
  cases cname with
  | none =>
    exact absurd hvuln (by simp [check_subdomain_takeover, check_subdomain_takeover_instr])
  | some cn =>
    cases hv : check_cname_vulnerable cn with
    | none =>
      refine absurd hvuln ?_
      simp [check_subdomain_takeover, check_subdomain_takeover_instr, hv]
    | some service =>
      simp only [check_subdomain_takeover, check_subdomain_takeover_instr,
        Option.isSome_some, if_true, Option.getD_some, hv] at hvuln ⊢
      refine ⟨?_, by simp, by simp⟩
      exact takeoverLoop_vuln service fetch [Protocol.https, Protocol.http] _ rfl hvuln

/-- C10 (witness): the invariant applied to a GitHub Pages dangling CNAME whose
fetched body matches the vulnerable pattern. -/
theorem takeover_vulnerable_invariant_witness :
    (check_subdomain_takeover "blog.example.com" none (some "user.github.io")
        (fun _ => FetchOutcome.success 200 "For root URLs here")).confidence =
      Confidence.high ∧
    (check_subdomain_takeover "blog.example.com" none (some "user.github.io")
        (fun _ => FetchOutcome.success 200 "For root URLs here")).service.isSome = true ∧
    (check_subdomain_takeover "blog.example.com" none (some "user.github.io")
        (fun _ => FetchOutcome.success 200 "For root URLs here")).cname.isSome = true :=
  takeover_vulnerable_invariant "blog.example.com" none (some "user.github.io")
    (fun _ => FetchOutcome.success 200 "For root URLs here") (by decide)
